import Mathlib

/-!
Verification of the hook-configuration and event-reporting subsystem of the
flow CLI.

The development shallowly embeds:
* the reporter fan-out (ReporterRegistry.report_all, BufferReporter) from
  local_server/reporters,
* the hook registry editor (HookParser) from
  commands/setup_cmd/claude_code_setup/hook_parser.py,
* the tool-facing wrappers setHook / removeHook / _is_flow_command from
  commands/setup_cmd/claude_code_setup/claude_hooks.py.

Python dictionaries are modelled as insertion-ordered association lists
(Python dicts preserve insertion order); JSON null is modelled as Option.none
at the relevant positions; Python exceptions are modelled with Except and an
explicit error kind.  Functions that the source only ever calls on well-formed
data still receive their full, faithful error behaviour here, because several
claims are about exactly those error paths.
-/

set_option maxHeartbeats 1000000

namespace FlowCli

/-! ## Python dict primitives (insertion-ordered association lists) -/

/-- Lookup in an insertion-ordered dict: value of the first pair with the key. -/
def dictGet {α : Type} (k : String) : List (String × α) → Option α
  | [] => none
  | (k1, v) :: rest => if k1 == k then some v else dictGet k rest

/-- Python `d[k] = v`: replace the value in place if the key exists, else
append the pair at the end (dicts keep insertion order). -/
def dictSet {α : Type} (k : String) (v : α) : List (String × α) → List (String × α)
  | [] => [(k, v)]
  | (k1, v1) :: rest =>
      if k1 == k then (k1, v) :: rest else (k1, v1) :: dictSet k v rest

/-- Python `del d[k]`: remove the pair with the key (first occurrence). -/
def dictDel {α : Type} (k : String) : List (String × α) → List (String × α)
  | [] => []
  | (k1, v1) :: rest =>
      if k1 == k then rest else (k1, v1) :: dictDel k rest

/-- In-place mutation of the first list element satisfying a predicate
(models Python mutating the dict object found by a search loop). -/
def updateFirst {α : Type} (p : α → Bool) (f : α → α) : List α → List α
  | [] => []
  | x :: xs => if p x then f x :: xs else x :: updateFirst p f xs

/-! ## Event records and reporters (local_server/reporters) -/

/-- A hook event record: an open JSON object, here string-valued fields. -/
abbrev Event := List (String × String)

/-- State of BufferReporter (buffer_reporter.py): in-memory list of events
plus the configured maximum size. -/
structure BufferReporter where
  buffer : List Event
  max_size : Nat
deriving DecidableEq

/-- BufferReporter.report: append the event, then evict the oldest entry
(list index 0) if the buffer is over max size. -/
def BufferReporter.report (r : BufferReporter) (e : Event) : BufferReporter :=
  let b := r.buffer ++ [e]
  if b.length > r.max_size then { r with buffer := b.tail } else { r with buffer := b }

/-- BufferReporter.get_recent: a snapshot copy of the buffer contents. -/
def BufferReporter.get_recent (r : BufferReporter) : List Event := r.buffer

/-- Folding a sequence of report calls over a BufferReporter. -/
def BufferReporter.reportMany (r : BufferReporter) (es : List Event) : BufferReporter :=
  es.foldl BufferReporter.report r

/-- A registered sink.  The buffer constructor embeds BufferReporter; the
failing constructor models a sink whose report coroutine always raises,
as used by the fan-out isolation property. -/
inductive Reporter where
  | buffer (r : BufferReporter)
  | failing
deriving DecidableEq

/-- One sink handling one event: the buffer sink stores the event and
returns normally, the failing sink raises. -/
def Reporter.report : Reporter → Event → Except String Reporter
  | .buffer r, e => .ok (.buffer (r.report e))
  | .failing, _ => .error "sink failure"

/-- ReporterRegistry.report_all (registry.py): iterate over the registered
reporters in registration order; each report call is wrapped in its own
try/except, so a failure leaves that sink as it was and the loop continues.
The return type carries no error: no exception escapes report_all. -/
def report_all (e : Event) : List Reporter → List Reporter
  | [] => []
  | r :: rest =>
      (match r.report e with
       | .ok r1 => r1
       | .error _ => r) :: report_all e rest

/-! ## String helpers modelling the Python operations in _is_flow_command -/

def dropLeadingWs : List Char → List Char
  | [] => []
  | c :: cs => if c.isWhitespace then dropLeadingWs cs else c :: cs

/-- Python str.strip(): whitespace removed from both ends. -/
def pyStrip (s : String) : List Char :=
  ((dropLeadingWs s.toList).reverse |> dropLeadingWs).reverse

/-- Python str.startswith on character lists (pattern first). -/
def listHasPre : List Char → List Char → Bool
  | [], _ => true
  | _ :: _, [] => false
  | p :: ps, c :: cs => p == c && listHasPre ps cs

/-- Python substring containment (pattern first). -/
def listHasSub : List Char → List Char → Bool
  | pat, [] => pat.isEmpty
  | pat, c :: cs => listHasPre pat (c :: cs) || listHasSub pat cs

/-- Python str.split("/"): split on every slash, keeping empty segments. -/
def splitOnSlash : List Char → List (List Char)
  | [] => [[]]
  | c :: cs =>
      let r := splitOnSlash cs
      if c == '/' then [] :: r
      else
        match r with
        | [] => [[c]]
        | g :: gs => (c :: g) :: gs

/-- claude_hooks._is_flow_command: a string heuristic deciding whether a hook
command belongs to the flow CLI.  The try/except in the source can never
fire (the string operations do not raise), so the model is total. -/
def is_flow_command (command : String) : Bool :=
  (listHasPre "flow ".toList (pyStrip command)
    || listHasSub "flow_cli.py".toList command.toList)
  || (listHasPre "/".toList command.toList
      && (listHasSub "flow_prompt_hook.py".toList command.toList
          || listHasSub "flow".toList ((splitOnSlash command.toList).getLastD [])))

/-! ## Hook registry data model (hook_parser.py settings format)

A hook command object is a JSON object with "type" and "command" plus
pass-through extra fields.  A hook group carries an optional "matcher" key
(none models the key being absent), the "hooks" list, and an optional "flow"
ownership-metadata block (none models the key being absent).  An event value
is either a list of groups or JSON null; the "hooks" value of the settings
document is either such a mapping or JSON null. -/

abbrev FlowMeta := List (String × String)

structure HookCommand where
  type : String
  command : String
  extra : List (String × String)
deriving DecidableEq

structure HookGroup where
  matcher : Option String
  hooks : List HookCommand
  flow : Option FlowMeta
deriving DecidableEq

abbrev EventVal := Option (List HookGroup)

abbrev HooksMap := List (String × EventVal)

/-- The in-memory settings_data after construction: the "hooks" key is always
present (load ensures it), but its value may be JSON null if the file said
so; other top-level settings keys are carried through opaquely. -/
structure SettingsData where
  hooks : Option HooksMap
  extra : List (String × String)
deriving DecidableEq

/-- Python exception kinds reachable in the embedded code. -/
inductive PyErr where
  | keyError
  | typeError
  | attributeError
deriving DecidableEq

/-- The state of the settings file on disk, as far as load can distinguish:
absent, unparsable text, valid JSON whose top level is not an object, or an
object with an optional "hooks" member (itself null or a mapping) and other
members. -/
inductive FileContent where
  | absent
  | malformed
  | jsonNonObj
  | jsonObj (hooks : Option (Option HooksMap)) (extra : List (String × String))
deriving DecidableEq

/-- Python dict truthiness for the optional flow_metadata argument:
None and the empty dict are falsy. -/
def metaTruthy : Option FlowMeta → Bool
  | none => false
  | some l => !l.isEmpty

/-- Python str truthiness for optional string arguments:
None and the empty string are falsy. -/
def pyTruthy : Option String → Bool
  | none => false
  | some s => !(s == "")

/-! ## HookParser operations (hook_parser.py) -/

/-- HookParser._load_settings.  Absent file: empty hooks structure.
Malformed JSON: the decode error is printed (the Bool flag) and an empty
hooks structure is used.  Valid JSON that is not an object: the membership
test or item assignment on a non-dict raises TypeError out of the
constructor.  An object without a "hooks" member gets one; an object with a
"hooks" member keeps its value as-is, even when that value is null. -/
def load_settings : FileContent → Except PyErr (Bool × SettingsData)
  | .absent => .ok (false, ⟨some [], []⟩)
  | .malformed => .ok (true, ⟨some [], []⟩)
  | .jsonNonObj => .error .typeError
  | .jsonObj none extra => .ok (false, ⟨some [], extra⟩)
  | .jsonObj (some hv) extra => .ok (false, ⟨hv, extra⟩)

/-- HookParser.save_hooks: deletes the event entries whose value is null from
the in-memory hooks dict, then writes the whole document.  If the "hooks"
value is itself null, iterating items() raises AttributeError. -/
def save_hooks (s : SettingsData) : Except PyErr (SettingsData × FileContent) :=
  match s.hooks with
  | none => .error .attributeError
  | some m =>
      let keysToRemove := (m.filter (fun p => p.2.isNone)).map (fun p => p.1)
      let m1 := keysToRemove.foldl (fun acc k => dictDel k acc) m
      .ok (⟨some m1, s.extra⟩, .jsonObj (some (some m1)) s.extra)

/-- HookParser.get_event_hooks: settings_data["hooks"].get(event_name, []).
Returns the stored value even when it is null. -/
def get_event_hooks (s : SettingsData) (event_name : String) : Except PyErr EventVal :=
  match s.hooks with
  | none => .error .attributeError
  | some m => .ok ((dictGet event_name m).getD (some []))

/-- HookParser.add_hook.  Initializes the event list when the event key is
absent; searches for the entry to extend (for matcher None: an entry without
a matcher and with matching flow-ownership presence; otherwise: the entry
with equal matcher) and appends the hook object to it, refreshing the flow
metadata when provided; otherwise appends a new entry.  Indexing a null
event value raises TypeError, as iterating None does in the source. -/
def add_hook (s : SettingsData) (event_name : String) (matcher : Option String)
    (hook_type : String) (command : String) (extra : List (String × String))
    (flow_metadata : Option FlowMeta) : Except PyErr SettingsData :=
  match s.hooks with
  | none => .error .typeError
  | some m0 =>
      let m := if (dictGet event_name m0).isSome then m0
               else dictSet event_name (some []) m0
      match dictGet event_name m with
      | none => .error .keyError
      | some none => .error .typeError
      | some (some entries) =>
          let hook_obj : HookCommand := ⟨hook_type, command, extra⟩
          let newFlow : Option FlowMeta :=
            if metaTruthy flow_metadata then flow_metadata else none
          let extend : HookGroup → HookGroup := fun e =>
            { e with hooks := e.hooks ++ [hook_obj],
                     flow := if metaTruthy flow_metadata then flow_metadata else e.flow }
          match matcher with
          | none =>
              let pred : HookGroup → Bool := fun e =>
                e.matcher.isNone
                  && (if metaTruthy flow_metadata then e.flow.isSome else e.flow.isNone)
              match entries.find? pred with
              | some _ =>
                  .ok ⟨some (dictSet event_name (some (updateFirst pred extend entries)) m),
                       s.extra⟩
              | none =>
                  .ok ⟨some (dictSet event_name
                        (some (entries ++ [⟨none, [hook_obj], newFlow⟩])) m), s.extra⟩
          | some mv =>
              let pred : HookGroup → Bool := fun e => e.matcher == some mv
              match entries.find? pred with
              | some _ =>
                  .ok ⟨some (dictSet event_name (some (updateFirst pred extend entries)) m),
                       s.extra⟩
              | none =>
                  .ok ⟨some (dictSet event_name
                        (some (entries ++ [⟨some mv, [hook_obj], newFlow⟩])) m), s.extra⟩

/-- HookParser.remove_hook.  A truthy matcher removes whole groups with that
matcher; otherwise a truthy command removes matching hook commands from
every group and prunes emptied groups; with both arguments falsy nothing is
filtered.  In every case an event whose remaining value is falsy (empty list
or null) has its key deleted.  Iterating a null event value raises. -/
def remove_hook (s : SettingsData) (event_name : String) (matcher : Option String)
    (command : Option String) : Except PyErr (Bool × SettingsData) :=
  match s.hooks with
  | none => .error .typeError
  | some m =>
      match dictGet event_name m with
      | none => .ok (false, s)
      | some ev =>
          if pyTruthy matcher then
            match ev with
            | none => .error .typeError
            | some entries =>
                let entries1 := entries.filter (fun e => !(e.matcher == matcher))
                let removed := decide (entries1.length < entries.length)
                let m1 := dictSet event_name (some entries1) m
                let m2 := if entries1.isEmpty then dictDel event_name m1 else m1
                .ok (removed, ⟨some m2, s.extra⟩)
          else if pyTruthy command then
            match ev with
            | none => .error .typeError
            | some entries =>
                let c := command.getD ""
                let entries1 := entries.map (fun e =>
                  { e with hooks := e.hooks.filter (fun h => !(h.command == c)) })
                let removed := entries.any (fun e => e.hooks.any (fun h => h.command == c))
                let entries2 := entries1.filter (fun e => !(e.hooks.isEmpty))
                let m1 := dictSet event_name (some entries2) m
                let m2 := if entries2.isEmpty then dictDel event_name m1 else m1
                .ok (removed, ⟨some m2, s.extra⟩)
          else
            let falsyEv : Bool :=
              match ev with
              | none => true
              | some entries => entries.isEmpty
            let m2 := if falsyEv then dictDel event_name m else m
            .ok (false, ⟨some m2, s.extra⟩)

/-- HookParser.is_flow_managed: presence of the "flow" metadata block. -/
def is_flow_managed (entry : HookGroup) : Bool := entry.flow.isSome

/-- HookParser.remove_flow_hooks: removes only entries carrying the "flow"
metadata block, optionally restricted to one matcher; a null event value is
explicitly treated as nothing-to-remove; the event key is deleted when the
remaining list is empty. -/
def remove_flow_hooks (s : SettingsData) (event_name : String)
    (matcher : Option String) : Except PyErr (Bool × SettingsData) :=
  match s.hooks with
  | none => .error .typeError
  | some m =>
      match dictGet event_name m with
      | none => .ok (false, s)
      | some none => .ok (false, s)
      | some (some entries) =>
          let entries1 :=
            match matcher with
            | some mv => entries.filter (fun e => !(is_flow_managed e && e.matcher == some mv))
            | none => entries.filter (fun e => !(is_flow_managed e))
          let removed := decide (entries1.length < entries.length)
          let m1 := dictSet event_name (some entries1) m
          let m2 := if entries1.isEmpty then dictDel event_name m1 else m1
          .ok (removed, ⟨some m2, s.extra⟩)

/-- HookParser.list_events: list(settings_data["hooks"].keys()). -/
def list_events (s : SettingsData) : Except PyErr (List String) :=
  match s.hooks with
  | none => .error .attributeError
  | some m => .ok (m.map (fun p => p.1))

/-- HookParser.list_matchers: entry.get("matcher", "") over the event list,
so a group without a matcher key is reported as the empty string. -/
def list_matchers (s : SettingsData) (event_name : String) : Except PyErr (List String) :=
  match s.hooks with
  | none => .error .typeError
  | some m =>
      match dictGet event_name m with
      | none => .ok []
      | some none => .error .typeError
      | some (some entries) => .ok (entries.map (fun e => e.matcher.getD ""))

/-- HookParser.clear_event. -/
def clear_event (s : SettingsData) (event_name : String) : Except PyErr (Bool × SettingsData) :=
  match s.hooks with
  | none => .error .typeError
  | some m =>
      if (dictGet event_name m).isSome then .ok (true, ⟨some (dictDel event_name m), s.extra⟩)
      else .ok (false, s)

/-- HookParser.clear_all: settings_data["hooks"] = \x7b\x7d. -/
def clear_all (s : SettingsData) : SettingsData := ⟨some [], s.extra⟩

/-- HookParser.get_hook_details: the hooks list of the first entry whose
matcher (absent read as None) equals the argument, else None. -/
def get_hook_details (s : SettingsData) (event_name : String) (matcher : Option String) :
    Except PyErr (Option (List HookCommand)) :=
  match s.hooks with
  | none => .error .typeError
  | some m =>
      match dictGet event_name m with
      | none => .ok none
      | some none => .error .typeError
      | some (some entries) =>
          .ok ((entries.find? (fun e => e.matcher == matcher)).map (fun e => e.hooks))

/-! ## Tool-facing operations (claude_hooks.py), modelled at the level of the
settings file content: load, edit, save, with every exception caught and
converted to a false return leaving the file untouched. -/

/-- claude_hooks.setHook: loads the scope's settings, calls add_hook with
hook_type "command" and no flow metadata, saves, and returns True; any
exception is printed and converted to False. -/
def setHook (file : FileContent) (event_name : String) (matcher : Option String)
    (cmd : String) : Bool × FileContent :=
  match load_settings file with
  | .error _ => (false, file)
  | .ok (_, s) =>
      match add_hook s event_name matcher "command" cmd [] none with
      | .error _ => (false, file)
      | .ok s1 =>
          match save_hooks s1 with
          | .error _ => (false, file)
          | .ok (_, f1) => (true, f1)

/-- claude_hooks.removeHook: loads the settings, reads the hook list for
(event, matcher) via get_hook_details, and for each hook whose command the
_is_flow_command heuristic accepts calls remove_hook(event, matcher,
command); saves only when something was removed.  Exceptions are printed and
converted to False. -/
def removeHook (file : FileContent) (event_name : String) (matcher : Option String) :
    Bool × FileContent :=
  match load_settings file with
  | .error _ => (false, file)
  | .ok (_, s0) =>
      match get_hook_details s0 event_name matcher with
      | .error _ => (false, file)
      | .ok hooksOpt =>
          let hooksList := hooksOpt.getD []
          if hooksList.isEmpty then (false, file)
          else
            let result := hooksList.foldl
              (fun acc h =>
                match acc with
                | .error e => .error e
                | .ok (removedAny, s) =>
                    if is_flow_command h.command then
                      match remove_hook s event_name matcher (some h.command) with
                      | .error e => .error e
                      | .ok (succ, s1) => .ok (removedAny || succ, s1)
                    else .ok (removedAny, s))
              (Except.ok (false, s0) : Except PyErr (Bool × SettingsData))
            match result with
            | .error _ => (false, file)
            | .ok (removedAny, s1) =>
                if removedAny then
                  match save_hooks s1 with
                  | .error _ => (false, file)
                  | .ok (_, f1) => (removedAny, f1)
                else (removedAny, file)

/-! ## Helper views used by the claim statements -/

/-- The list of hook groups stored for an event in a written settings file
(empty for any other file shape). -/
def eventGroups (f : FileContent) (event : String) : List HookGroup :=
  match f with
  | .jsonObj (some (some m)) _ => ((dictGet event m).getD (some [])).getD []
  | _ => []

/-- The list of hook groups stored for an event in an in-memory settings
document. -/
def settingsEventGroups (s : SettingsData) (event : String) : List HookGroup :=
  match s.hooks with
  | some m => ((dictGet event m).getD (some [])).getD []
  | none => []

/-- The owned (flow-managed) groups for (event, matcher) in a written file. -/
def ownedGroupsFor (f : FileContent) (event : String) (matcher : Option String) :
    List HookGroup :=
  (eventGroups f event).filter (fun g => is_flow_managed g && g.matcher == matcher)

/-- The groups remove_flow_hooks deletes: the flow-managed ones, optionally
restricted to one matcher. -/
def flowSel (mo : Option String) (g : HookGroup) : Bool :=
  is_flow_managed g && (match mo with | some mv => g.matcher == some mv | none => true)

/-- True when the operation returned without raising and left the "hooks"
value a mapping (not null). -/
def okSettings : Except PyErr SettingsData → Bool
  | .ok s1 => s1.hooks.isSome
  | .error _ => false

/-- As okSettings, for operations returning a flag beside the state. -/
def okState : Except PyErr (Bool × SettingsData) → Bool
  | .ok (_, s1) => s1.hooks.isSome
  | .error _ => false

/-- As okSettings, for save_hooks (state beside the written file). -/
def okSave : Except PyErr (SettingsData × FileContent) → Bool
  | .ok (s1, _) => s1.hooks.isSome
  | .error _ => false

/-- True when the operation returned without raising. -/
def okAny {α : Type} : Except PyErr α → Bool
  | .ok _ => true
  | .error _ => false

/-! ## Sample events used by the closed witnesses -/

def ev0 : Event := [("hook_event_name", "UserPromptSubmit")]

def ev1 : Event := [("seq", "E1")]

def ev2 : Event := [("seq", "E2")]

def ev3 : Event := [("seq", "E3")]

def ev4 : Event := [("seq", "E4")]

def ev5 : Event := [("seq", "E5")]

/-! ## Basic lemmas about the reporter fan-out -/

theorem report_all_eq_map (e : Event) (sinks : List Reporter) :
    report_all e sinks
      = sinks.map (fun r => match r.report e with | .ok r1 => r1 | .error _ => r) := by
  induction sinks with
  | nil => rfl
  | cons r rest ih => simp [report_all, ih]

theorem report_all_append (e : Event) (xs ys : List Reporter) :
    report_all e (xs ++ ys) = report_all e xs ++ report_all e ys := by
  simp [report_all_eq_map]

/-- A buffer with positive capacity keeps the just-reported event. -/
theorem mem_buffer_report (n : Nat) (b : List Event) (e : Event) (h : 1 ≤ n) :
    e ∈ (BufferReporter.report ⟨b, n⟩ e).buffer := by
  simp only [BufferReporter.report]
  by_cases hlen : (b ++ [e]).length > n
  · rw [if_pos hlen]
    cases b with
    | nil => simp at hlen; omega
    | cons x bs => simp
  · rw [if_neg hlen]
    simp

/-- The buffer after a sequence of reports holds exactly the suffix of the
reported events that fits, in arrival order. -/
theorem reportMany_buffer (n : Nat) :
    ∀ (es b : List Event), b.length ≤ n →
      BufferReporter.reportMany ⟨b, n⟩ es
        = ⟨(b ++ es).drop ((b ++ es).length - n), n⟩ := by
  intro es
  induction es with
  | nil =>
      intro b hb
      simp [BufferReporter.reportMany, Nat.sub_eq_zero_of_le, hb]
  | cons e es ih =>
      intro b hb
      have hstep : BufferReporter.report ⟨b, n⟩ e
          = ⟨(b ++ [e]).drop ((b ++ [e]).length - n), n⟩ := by
        have h2 : (b ++ [e]).length = b.length + 1 := by simp
        by_cases hlen : (b ++ [e]).length > n
        · have h1 : (b ++ [e]).length - n = 1 := by omega
          rw [h1, List.drop_one]
          simp only [BufferReporter.report]
          rw [if_pos hlen]
        · have h0 : (b ++ [e]).length - n = 0 := by omega
          rw [h0, List.drop_zero]
          simp only [BufferReporter.report]
          rw [if_neg hlen]
      have hlen1 : ((b ++ [e]).drop ((b ++ [e]).length - n)).length ≤ n := by
        simp [List.length_drop]; omega
      calc BufferReporter.reportMany ⟨b, n⟩ (e :: es)
          = BufferReporter.reportMany (BufferReporter.report ⟨b, n⟩ e) es := by
            simp [BufferReporter.reportMany, List.foldl_cons]
        _ = BufferReporter.reportMany ⟨(b ++ [e]).drop ((b ++ [e]).length - n), n⟩ es := by
            rw [hstep]
        _ = ⟨(b ++ e :: es).drop ((b ++ e :: es).length - n), n⟩ := by
            rw [ih _ hlen1]
            congr 1
            have hk : (b ++ [e]).length - n ≤ (b ++ [e]).length := Nat.sub_le _ _
            rw [← List.drop_append_of_le_length hk, List.drop_drop]
            have harr : b ++ e :: es = (b ++ [e]) ++ es := by simp
            rw [harr]
            congr 1
            simp [List.length_drop, List.length_append]
            omega

/-! ## Claim C1: fan-out isolation of report_all -/







/-- C1: ReporterRegistry.report_all delivers the event to every registered
sink in registration order, handling each sink independently: a sink whose
report raises is caught and logged inside report_all, so it neither blocks
delivery to the other sinks nor propagates (report_all returns a plain sink
list, never an exception).  In particular, with an always-raising sink
followed by a ring-buffer sink of positive capacity, the buffer sink still
receives the event. -/
theorem report_all_fanout_isolation (e : Event) (n : Nat) (b : List Event)
    (pre post : List Reporter) (h : 1 ≤ n) :
    report_all e (pre ++ Reporter.failing :: Reporter.buffer ⟨b, n⟩ :: post)
      = report_all e pre
          ++ Reporter.failing :: Reporter.buffer (BufferReporter.report ⟨b, n⟩ e)
            :: report_all e post
    ∧ e ∈ (BufferReporter.report ⟨b, n⟩ e).get_recent := by
  constructor
  · rw [report_all_append]
    simp [report_all, Reporter.report]
  · exact mem_buffer_report n b e h

theorem report_all_fanout_isolation_witness :
    report_all ev0 ([] ++ Reporter.failing :: Reporter.buffer ⟨[], 3⟩ :: [])
      = report_all ev0 []
          ++ Reporter.failing :: Reporter.buffer (BufferReporter.report ⟨[], 3⟩ ev0)
            :: report_all ev0 []
    ∧ ev0 ∈ (BufferReporter.report ⟨[], 3⟩ ev0).get_recent :=
  report_all_fanout_isolation ev0 3 [] [] [] (by decide)

/-! ## Claim C6: buffer bound and FIFO eviction -/

/-- C6: a BufferReporter with positive max_size n never holds more than n
events (report evicts the oldest entry first-in-first-out when full), and
get_recent returns the suffix of the reported events that fits, in arrival
order; with max_size 3 and five events reported in order it returns exactly
the last three. -/
theorem buffer_reporter_bound_fifo (n : Nat) (h : 0 < n) (es : List Event) :
    (BufferReporter.reportMany ⟨[], n⟩ es).buffer.length ≤ n
    ∧ (BufferReporter.reportMany ⟨[], n⟩ es).get_recent = es.drop (es.length - n)
    ∧ ∀ (e1 e2 e3 e4 e5 : Event),
        (BufferReporter.reportMany ⟨[], 3⟩ [e1, e2, e3, e4, e5]).get_recent
          = [e3, e4, e5] := by
  have hmain := reportMany_buffer n es [] (by simp)
  simp only [List.nil_append] at hmain
  refine ⟨?_, ?_, ?_⟩
  · rw [hmain]
    simp only [List.length_drop]
    omega
  · rw [hmain]
    rfl
  · intro e1 e2 e3 e4 e5
    have h5 := reportMany_buffer 3 [e1, e2, e3, e4, e5] [] (by simp)
    simp only [List.nil_append] at h5
    rw [h5]
    rfl

theorem buffer_reporter_bound_fifo_witness :
    0 < 3
    ∧ ((BufferReporter.reportMany ⟨[], 3⟩ [ev1, ev2, ev3, ev4, ev5]).buffer.length ≤ 3
       ∧ (BufferReporter.reportMany ⟨[], 3⟩ [ev1, ev2, ev3, ev4, ev5]).get_recent
           = [ev1, ev2, ev3, ev4, ev5].drop ([ev1, ev2, ev3, ev4, ev5].length - 3)
       ∧ ∀ (e1 e2 e3 e4 e5 : Event),
           (BufferReporter.reportMany ⟨[], 3⟩ [e1, e2, e3, e4, e5]).get_recent
             = [e3, e4, e5]) :=
  ⟨by decide, buffer_reporter_bound_fifo 3 (by decide) [ev1, ev2, ev3, ev4, ev5]⟩

/-! ## Claim C2: setHook replace semantics (refuted) -/

/-- C2 fails on the code: setHook accepts no ownership metadata and performs
no removal before adding.  After two setHook calls for the same
(event, matcher) the registry holds zero owned groups (so not "exactly one
owned HookGroup"), and the single non-owned group holds both commands (so
the first command is not gone). -/
theorem setHook_replace_semantics_counterexample :
    (ownedGroupsFor
        (setHook (setHook FileContent.absent "UserPromptSubmit" none "flow prompt one").2
          "UserPromptSubmit" none "flow prompt two").2
        "UserPromptSubmit" none).length = 0
    ∧ (eventGroups
        (setHook (setHook FileContent.absent "UserPromptSubmit" none "flow prompt one").2
          "UserPromptSubmit" none "flow prompt two").2
        "UserPromptSubmit").map
          (fun g => (g.matcher, g.hooks.map (fun h => h.command), g.flow))
      = [(none, ["flow prompt one", "flow prompt two"], none)] :=
  ⟨rfl, rfl⟩

/-! ## Claim C9: load behaviour for absent/corrupt files (corrected) -/

/-- C9 fails in one case: a file holding valid JSON whose top level is not
an object is data corruption of the registry file, and load raises a
TypeError out of the constructor instead of returning an empty registry. -/
theorem load_settings_nonobject_counterexample :
    load_settings FileContent.jsonNonObj = Except.error PyErr.typeError := rfl

/-- C9 amended: an absent settings file loads as the empty registry; a file
with malformed JSON has the parse failure reported (the Bool flag) and loads
as the empty registry; a file holding a JSON object never makes load raise.
Only a valid-JSON non-object top level (see the counterexample) raises. -/
theorem load_settings_absent_malformed :
    load_settings FileContent.absent = Except.ok (false, ⟨some [], []⟩)
    ∧ load_settings FileContent.malformed = Except.ok (true, ⟨some [], []⟩)
    ∧ ∀ (hv : Option (Option HooksMap)) (extra : List (String × String)),
        ∃ b s, load_settings (FileContent.jsonObj hv extra) = Except.ok (b, s) := by
  refine ⟨rfl, rfl, ?_⟩
  intro hv extra
  cases hv with
  | none => exact ⟨false, _, rfl⟩
  | some hv2 => exact ⟨false, _, rfl⟩

/-! ## Claim C10: the hooks-key invariant (corrected) -/

/-- C10 fails as stated: a settings file binding "hooks" to JSON null loads
without error, after which the in-memory document's "hooks" key is bound to
null rather than to a mapping, and operations that use it fail (list_events
touches None.keys() raising AttributeError; get_event_hooks likewise). -/
theorem hooks_null_invariant_counterexample :
    load_settings (FileContent.jsonObj (some none) []) = Except.ok (false, ⟨none, []⟩)
    ∧ list_events ⟨none, []⟩ = Except.error PyErr.attributeError
    ∧ get_event_hooks ⟨none, []⟩ "Stop" = Except.error PyErr.attributeError :=
  ⟨rfl, rfl, rfl⟩

/-! ## Claim C3: removeHook ownership gating (refuted) -/

/-- C3 fails on the code: removeHook is gated on the _is_flow_command string
heuristic, not on ownership metadata.  A registry whose only group carries
no ownership metadata but whose command string starts with "flow " is
removed (removeHook returns true and the group is gone), instead of the
removal being refused. -/
theorem removeHook_ownership_counterexample :
    (eventGroups
        (FileContent.jsonObj
          (some (some [("PreToolUse",
            some [⟨none, [⟨"command", "flow ping hello", []⟩], none⟩])])) [])
        "PreToolUse").all (fun g => !(is_flow_managed g)) = true
    ∧ removeHook
        (FileContent.jsonObj
          (some (some [("PreToolUse",
            some [⟨none, [⟨"command", "flow ping hello", []⟩], none⟩])])) [])
        "PreToolUse" none
      = (true, FileContent.jsonObj (some (some [])) []) :=
  ⟨rfl, rfl⟩

/-! ## Claim C5: add_hook grouping by ownership presence (refuted for
non-None matchers) -/

/-- C5 fails on the code for non-None matchers: add_hook's matcher branch
searches for an entry by matcher equality only, so adding a tool-owned hook
with the same matcher as an existing foreign group appends to that foreign
group (and stamps the supplied flow metadata onto it) instead of creating a
separate group. -/
theorem add_hook_matcher_ownership_counterexample :
    add_hook
        ⟨some [("PreToolUse", some [⟨some "Bash", [⟨"command", "echo a", []⟩], none⟩])], []⟩
        "PreToolUse" (some "Bash") "command" "flow x" [] (some [("managed", "true")])
      = Except.ok
          ⟨some [("PreToolUse",
            some [⟨some "Bash",
                   [⟨"command", "echo a", []⟩, ⟨"command", "flow x", []⟩],
                   some [("managed", "true")]⟩])], []⟩
    ∧ (settingsEventGroups
        ⟨some [("PreToolUse",
          some [⟨some "Bash",
                 [⟨"command", "echo a", []⟩, ⟨"command", "flow x", []⟩],
                 some [("managed", "true")]⟩])], []⟩
        "PreToolUse").length = 1 :=
  ⟨rfl, rfl⟩

/-! ## Claim C7: matcher None versus empty string (refuted for remove_hook
and list_matchers) -/

/-- C7 fails on the code: remove_hook tests the matcher with Python
truthiness, so matcher "" falls through to the command branch and the group
whose matcher is the literal empty string is not removed; and list_matchers
reads entry.get("matcher", ""), reporting a group without a matcher key as
"", indistinguishable from a literal empty-string matcher. -/
theorem empty_matcher_counterexample :
    remove_hook ⟨some [("E", some [⟨some "", [⟨"command", "x", []⟩], none⟩])], []⟩
        "E" (some "") none
      = Except.ok (false, ⟨some [("E", some [⟨some "", [⟨"command", "x", []⟩], none⟩])], []⟩)
    ∧ list_matchers ⟨some [("E", some [⟨some "", [⟨"command", "x", []⟩], none⟩])], []⟩ "E"
        = Except.ok [""]
    ∧ list_matchers ⟨some [("E", some [⟨none, [⟨"command", "x", []⟩], none⟩])], []⟩ "E"
        = Except.ok [""] :=
  ⟨rfl, rfl, rfl⟩

/-! ## Association-list lemmas shared by several claims -/

theorem dictGet_dictSet_self {α : Type} (k : String) (v : α) (m : List (String × α)) :
    dictGet k (dictSet k v m) = some v := by
  induction m with
  | nil => simp [dictGet, dictSet]
  | cons p rest ih =>
      obtain ⟨k1, v1⟩ := p
      by_cases h : (k1 == k) = true
      · simp [dictGet, dictSet, h]
      · simp [dictGet, dictSet, h, ih]

theorem dictSet_self {α : Type} (k : String) (v : α) (m : List (String × α))
    (h : dictGet k m = some v) : dictSet k v m = m := by
  induction m with
  | nil => simp [dictGet] at h
  | cons p rest ih =>
      obtain ⟨k1, v1⟩ := p
      by_cases hk : (k1 == k) = true
      · simp [dictGet, hk] at h
        simp [dictSet, hk, h]
      · simp [dictGet, hk] at h
        simp [dictSet, hk, ih h]

theorem dictGet_mem {α : Type} (k : String) (m : List (String × α)) (v : α)
    (h : dictGet k m = some v) : ∃ p ∈ m, p.2 = v := by
  induction m with
  | nil => simp [dictGet] at h
  | cons p rest ih =>
      obtain ⟨k1, v1⟩ := p
      by_cases hk : (k1 == k) = true
      · simp [dictGet, hk] at h
        exact ⟨(k1, v1), by simp, by simp [h]⟩
      · simp [dictGet, hk] at h
        obtain ⟨q, hq, hqv⟩ := ih h
        exact ⟨q, by simp [hq], hqv⟩

/-! ## Claim C4: remove_flow_hooks ownership isolation (confirmed) -/

/-- C4: remove_flow_hooks deletes exactly the groups carrying ownership
metadata (optionally restricted to one matcher), leaves every group without
ownership metadata in the kept list with all its commands intact, and on an
event whose groups all lack ownership metadata it returns false and leaves
the settings document unchanged. -/
theorem remove_flow_hooks_ownership_isolation (s : SettingsData) (m : HooksMap)
    (E : String) (mo : Option String) (l : List HookGroup)
    (hs : s.hooks = some m) (hl : dictGet E m = some (some l)) :
    remove_flow_hooks s E mo
        = Except.ok (decide ((l.filter (fun g => !(flowSel mo g))).length < l.length),
            ⟨some (if (l.filter (fun g => !(flowSel mo g))).isEmpty
                   then dictDel E (dictSet E (some (l.filter (fun g => !(flowSel mo g)))) m)
                   else dictSet E (some (l.filter (fun g => !(flowSel mo g)))) m), s.extra⟩)
    ∧ (∀ g ∈ l, g.flow = none → g ∈ l.filter (fun g => !(flowSel mo g)))
    ∧ (l ≠ [] → (∀ g ∈ l, g.flow = none) →
        remove_flow_hooks s E mo = Except.ok (false, s)) := by
  obtain ⟨sh, sx⟩ := s
  simp only [SettingsData.mk.injEq] at hs
  have hs1 : sh = some m := hs
  subst hs1
  refine ⟨?_, ?_, ?_⟩
  · cases mo with
    | none => simp [remove_flow_hooks, hl, flowSel]
    | some mv => simp [remove_flow_hooks, hl, flowSel]
  · intro g hg hflow
    simp [List.mem_filter, flowSel, is_flow_managed, hflow, hg]
  · intro hne hall
    have hkeep : l.filter (fun g => !(flowSel mo g)) = l := by
      apply List.filter_eq_self.mpr
      intro g hg
      simp [flowSel, is_flow_managed, hall g hg]
    have hempty : l.isEmpty = false := by
      cases l with
      | nil => exact absurd rfl hne
      | cons a as => rfl
    have hset : dictSet E (some l) m = m := dictSet_self E (some l) m hl
    cases mo with
    | none =>
        have hkeep2 : l.filter (fun e => !(is_flow_managed e)) = l := by
          apply List.filter_eq_self.mpr
          intro g hg
          simp [is_flow_managed, hall g hg]
        simp only [remove_flow_hooks, hl]
        simp only [hkeep2]
        simp [hempty, hset]
    | some mv =>
        have hkeep2 : l.filter (fun e => !(is_flow_managed e && e.matcher == some mv)) = l := by
          apply List.filter_eq_self.mpr
          intro g hg
          simp [is_flow_managed, hall g hg]
        simp only [remove_flow_hooks, hl]
        simp only [hkeep2]
        simp [hempty, hset]

theorem remove_flow_hooks_ownership_isolation_witness :
    remove_flow_hooks
        ⟨some [("E", some [⟨none, [⟨"command", "echo x", []⟩], none⟩])], []⟩ "E" none
      = Except.ok (false,
          ⟨some [("E", some [⟨none, [⟨"command", "echo x", []⟩], none⟩])], []⟩) :=
  (remove_flow_hooks_ownership_isolation
      ⟨some [("E", some [⟨none, [⟨"command", "echo x", []⟩], none⟩])], []⟩
      [("E", some [⟨none, [⟨"command", "echo x", []⟩], none⟩])]
      "E" none [⟨none, [⟨"command", "echo x", []⟩], none⟩] rfl rfl).2.2
    (by decide) (by decide)

theorem dictGet_eq_none_of_not_mem {α : Type} (k : String) (m : List (String × α))
    (h : k ∉ m.map Prod.fst) : dictGet k m = none := by
  induction m with
  | nil => rfl
  | cons q rest ih =>
      obtain ⟨k1, v1⟩ := q
      simp only [List.map_cons, List.mem_cons] at h
      push_neg at h
      have hne : (k1 == k) = false := beq_eq_false_iff_ne.mpr (fun he => h.1 he.symm)
      simp [dictGet, hne, ih h.2]

theorem dictDel_cons_ne {α : Type} (k k1 : String) (v : α) (rest : List (String × α))
    (h : (k1 == k) = false) : dictDel k ((k1, v) :: rest) = (k1, v) :: dictDel k rest := by
  simp [dictDel, h]

theorem foldl_dictDel_cons {α : Type} (ks : List String) (k1 : String) (v : α)
    (rest : List (String × α)) (h : ∀ k ∈ ks, (k1 == k) = false) :
    ks.foldl (fun acc k => dictDel k acc) ((k1, v) :: rest)
      = (k1, v) :: ks.foldl (fun acc k => dictDel k acc) rest := by
  induction ks generalizing rest with
  | nil => rfl
  | cons a as ih =>
      simp only [List.foldl_cons]
      rw [dictDel_cons_ne _ _ _ _ (h a (by simp))]
      exact ih _ (fun k hk => h k (by simp [hk]))

/-- Deleting from a dict with distinct keys exactly the keys bound to null
leaves exactly the non-null bindings, in order. -/
theorem strip_nulls_eq_filter (m : HooksMap) (hnd : (m.map Prod.fst).Nodup) :
    ((m.filter (fun p => p.2.isNone)).map (fun p => p.1)).foldl
        (fun acc k => dictDel k acc) m
      = m.filter (fun p => p.2.isSome) := by
  induction m with
  | nil => rfl
  | cons p rest ih =>
      obtain ⟨k, v⟩ := p
      simp only [List.map_cons, List.nodup_cons] at hnd
      obtain ⟨hk, hnd2⟩ := hnd
      cases v with
      | none =>
          simp only [List.filter_cons, Option.isNone_none, if_pos, List.map_cons,
            List.foldl_cons]
          have hdel : dictDel k ((k, (none : EventVal)) :: rest) = rest := by
            simp [dictDel]
          rw [hdel, ih hnd2]
          simp [List.filter_cons]
      | some l =>
          have hkeys : ∀ k2 ∈ (rest.filter (fun p => p.2.isNone)).map (fun p => p.1),
              (k == k2) = false := by
            intro k2 hk2
            simp only [List.mem_map] at hk2
            obtain ⟨q, hq, hq2⟩ := hk2
            have hqrest : q.1 ∈ rest.map Prod.fst :=
              List.mem_map.mpr ⟨q, List.mem_of_mem_filter hq, rfl⟩
            apply beq_eq_false_iff_ne.mpr
            intro he
            subst he
            rw [hq2] at hqrest
            exact hk hqrest
          have hfilter1 : List.filter (fun p => Option.isNone p.2) ((k, some l) :: rest)
              = List.filter (fun p => Option.isNone p.2) rest := by simp
          have hfilter2 : List.filter (fun p => Option.isSome p.2) ((k, some l) :: rest)
              = (k, some l) :: List.filter (fun p => Option.isSome p.2) rest := by simp
          rw [hfilter1, hfilter2, foldl_dictDel_cons _ _ _ _ hkeys, ih hnd2]

theorem dictGet_filter_none {α : Type} (k : String) (m : List (String × α))
    (p : String × α → Bool) (h : dictGet k m = none) : dictGet k (m.filter p) = none := by
  induction m with
  | nil => rfl
  | cons q rest ih =>
      obtain ⟨k1, v1⟩ := q
      by_cases hk : (k1 == k) = true
      · simp [dictGet, hk] at h
      · have hne : (k1 == k) = false := by simpa using hk
        have hrest : dictGet k rest = none := by simpa [dictGet, hne] using h
        cases hp : p (k1, v1) with
        | true => simp [List.filter_cons, hp, dictGet, hne, ih hrest]
        | false => simp [List.filter_cons, hp, ih hrest]

/-- On a dict with distinct keys, filtering out the null bindings removes
exactly the keys bound to null and preserves every other binding. -/
theorem dictGet_filter_isSome (m : HooksMap) (hnd : (m.map Prod.fst).Nodup) (k : String) :
    dictGet k (m.filter (fun p => p.2.isSome))
      = (dictGet k m).bind (fun v => if v.isSome then some v else none) := by
  induction m with
  | nil => rfl
  | cons q rest ih =>
      obtain ⟨k1, v1⟩ := q
      simp only [List.map_cons, List.nodup_cons] at hnd
      obtain ⟨hk1, hnd2⟩ := hnd
      by_cases hk : (k1 == k) = true
      · cases hv : v1.isSome with
        | true =>
            simp [List.filter_cons, hv, dictGet, hk]
        | false =>
            have hkeq : k1 = k := eq_of_beq hk
            subst hkeq
            have hrest : dictGet k1 rest = none :=
              dictGet_eq_none_of_not_mem k1 rest hk1
            simp [List.filter_cons, hv, dictGet, hk,
              dictGet_filter_none k1 rest _ hrest]
      · have hne : (k1 == k) = false := by simpa using hk
        cases hp : v1.isSome with
        | true => simp [List.filter_cons, hp, dictGet, hne, ih hnd2]
        | false => simp [List.filter_cons, hp, dictGet, hne, ih hnd2]

/-! ## Claim C8: save strips exactly the null event entries (confirmed) -/

/-- C8: save_hooks deletes from the hooks mapping exactly the event entries
whose value is the null sentinel and preserves every other entry with its
groups, in order; the written document carries the stripped mapping.
Stated for documents with distinct event keys (a JSON-derived dict). -/
theorem save_hooks_strips_null_entries (s : SettingsData) (m : HooksMap)
    (hs : s.hooks = some m) (hnd : (m.map Prod.fst).Nodup) :
    save_hooks s = Except.ok
      (⟨some (m.filter (fun p => p.2.isSome)), s.extra⟩,
       FileContent.jsonObj (some (some (m.filter (fun p => p.2.isSome)))) s.extra)
    ∧ ∀ k, dictGet k (m.filter (fun p => p.2.isSome))
        = (dictGet k m).bind (fun v => if v.isSome then some v else none) := by
  obtain ⟨sh, sx⟩ := s
  simp only [SettingsData.mk.injEq] at hs
  have hs1 : sh = some m := hs
  subst hs1
  refine ⟨?_, fun k => dictGet_filter_isSome m hnd k⟩
  simp only [save_hooks]
  rw [strip_nulls_eq_filter m hnd]

theorem save_hooks_strips_null_entries_witness :
    save_hooks ⟨some [("Stop", none),
        ("SessionStart", some [⟨none, [⟨"command", "x", []⟩], none⟩])], []⟩
      = Except.ok
          (⟨some [("SessionStart", some [⟨none, [⟨"command", "x", []⟩], none⟩])], []⟩,
           FileContent.jsonObj
             (some (some [("SessionStart",
               some [⟨none, [⟨"command", "x", []⟩], none⟩])])) []) :=
  (save_hooks_strips_null_entries
      ⟨some [("Stop", none),
        ("SessionStart", some [⟨none, [⟨"command", "x", []⟩], none⟩])], []⟩
      [("Stop", none), ("SessionStart", some [⟨none, [⟨"command", "x", []⟩], none⟩])]
      rfl (by decide)).1

/-! ## Claim C2 amended theorem: setHook is purely additive -/

/-- C2 amended: setHook carries no ownership metadata and performs no
replacement: starting from an absent settings file, two setHook calls for
the same (event, matcher) both return true and leave exactly one non-owned
HookGroup for that (event, matcher) holding both commands in call order. -/
theorem setHook_two_calls_additive (event cmd1 cmd2 : String) (matcher : Option String) :
    (setHook FileContent.absent event matcher cmd1).1 = true
    ∧ (setHook (setHook FileContent.absent event matcher cmd1).2 event matcher cmd2).1 = true
    ∧ (setHook (setHook FileContent.absent event matcher cmd1).2 event matcher cmd2).2
        = FileContent.jsonObj
            (some (some [(event,
              some [⟨matcher, [⟨"command", cmd1, []⟩, ⟨"command", cmd2, []⟩], none⟩])])) [] := by
  have h1 : setHook FileContent.absent event matcher cmd1
      = (true, FileContent.jsonObj
          (some (some [(event, some [⟨matcher, [⟨"command", cmd1, []⟩], none⟩])])) []) := by
    cases matcher with
    | none =>
        simp [setHook, load_settings, add_hook, save_hooks, dictGet, dictSet,
          metaTruthy, List.find?, List.filter]
    | some mv =>
        simp [setHook, load_settings, add_hook, save_hooks, dictGet, dictSet,
          metaTruthy, List.find?, List.filter]
  have h2 : setHook (FileContent.jsonObj
        (some (some [(event, some [⟨matcher, [⟨"command", cmd1, []⟩], none⟩])])) [])
        event matcher cmd2
      = (true, FileContent.jsonObj
          (some (some [(event,
            some [⟨matcher, [⟨"command", cmd1, []⟩, ⟨"command", cmd2, []⟩], none⟩])])) []) := by
    cases matcher with
    | none =>
        simp [setHook, load_settings, add_hook, save_hooks, dictGet, dictSet,
          metaTruthy, updateFirst, List.find?, List.filter]
    | some mv =>
        simp [setHook, load_settings, add_hook, save_hooks, dictGet, dictSet,
          metaTruthy, updateFirst, List.find?, List.filter]
  refine ⟨by rw [h1], by rw [h1, h2], by rw [h1, h2]⟩

/-! ## Claim C3 amended theorem: removeHook is gated on the string heuristic -/

theorem is_flow_command_empty_false : is_flow_command "" = false := by decide

/-- C3 amended: removeHook decides removal with the _is_flow_command string
heuristic applied to each hook command, not with ownership metadata: on a
registry holding one non-owned matcher-less group with a single command c,
removeHook removes the group exactly when the heuristic accepts c (emptying
the registry), and otherwise leaves the file untouched; its return value
reports whether a heuristic-accepted command was removed. -/
theorem removeHook_command_heuristic (E c : String) :
    removeHook
        (FileContent.jsonObj (some (some [(E, some [⟨none, [⟨"command", c, []⟩], none⟩])])) [])
        E none
      = (is_flow_command c,
         if is_flow_command c then FileContent.jsonObj (some (some [])) []
         else FileContent.jsonObj
           (some (some [(E, some [⟨none, [⟨"command", c, []⟩], none⟩])])) []) := by
  cases hc : is_flow_command c with
  | false =>
      simp [removeHook, load_settings, get_hook_details, dictGet, List.find?, hc]
  | true =>
      have hcp : ¬(c = "") := by
        intro h
        rw [h, is_flow_command_empty_false] at hc
        exact absurd hc (by simp)
      have hcne : (c == "") = false := beq_eq_false_iff_ne.mpr hcp
      simp [removeHook, load_settings, get_hook_details, remove_hook, save_hooks,
        dictGet, dictSet, dictDel, pyTruthy, List.find?, List.filter, hc, hcne, hcp]

/-! ## Claim C5 amended theorem: grouping keys of add_hook -/

/-- C5 amended: add_hook groups by (matcher, ownership-presence) only for
matcher-less adds: a matcher-less add with the opposite ownership status
creates a separate group, while one with the same ownership status appends
to the existing group.  For a non-None matcher the entry is selected by
matcher equality alone, so an owned add with the same matcher as a foreign
group appends to that foreign group and stamps the metadata onto it. -/
theorem add_hook_grouping_semantics (E t1 t2 c1 c2 mv : String) (meta : FlowMeta)
    (hmeta : meta ≠ []) :
    add_hook ⟨some [(E, some [⟨none, [⟨t1, c1, []⟩], none⟩])], []⟩
        E none t2 c2 [] (some meta)
      = Except.ok ⟨some [(E, some [⟨none, [⟨t1, c1, []⟩], none⟩,
          ⟨none, [⟨t2, c2, []⟩], some meta⟩])], []⟩
    ∧ add_hook ⟨some [(E, some [⟨none, [⟨t1, c1, []⟩], some meta⟩])], []⟩
        E none t2 c2 [] (some meta)
      = Except.ok ⟨some [(E, some [⟨none, [⟨t1, c1, []⟩, ⟨t2, c2, []⟩], some meta⟩])], []⟩
    ∧ add_hook ⟨some [(E, some [⟨none, [⟨t1, c1, []⟩], none⟩])], []⟩
        E none t2 c2 [] none
      = Except.ok ⟨some [(E, some [⟨none, [⟨t1, c1, []⟩, ⟨t2, c2, []⟩], none⟩])], []⟩
    ∧ add_hook ⟨some [(E, some [⟨some mv, [⟨t1, c1, []⟩], none⟩])], []⟩
        E (some mv) t2 c2 [] (some meta)
      = Except.ok ⟨some [(E, some [⟨some mv, [⟨t1, c1, []⟩, ⟨t2, c2, []⟩],
          some meta⟩])], []⟩ := by
  have hne : meta.isEmpty = false := by
    cases meta with
    | nil => exact absurd rfl hmeta
    | cons a as => rfl
  refine ⟨?_, ?_, ?_, ?_⟩
  · simp [add_hook, dictGet, dictSet, metaTruthy, updateFirst, List.find?, hne]
  · simp [add_hook, dictGet, dictSet, metaTruthy, updateFirst, List.find?, hne]
  · simp [add_hook, dictGet, dictSet, metaTruthy, updateFirst, List.find?]
  · simp [add_hook, dictGet, dictSet, metaTruthy, updateFirst, List.find?, hne]

theorem add_hook_grouping_semantics_witness :
    add_hook ⟨some [("E", some [⟨some "Bash", [⟨"command", "a", []⟩], none⟩])], []⟩
        "E" (some "Bash") "command" "b" [] (some [("managed", "true")])
      = Except.ok ⟨some [("E", some [⟨some "Bash",
          [⟨"command", "a", []⟩, ⟨"command", "b", []⟩],
          some [("managed", "true")]⟩])], []⟩ :=
  (add_hook_grouping_semantics "E" "command" "command" "a" "b" "Bash"
    [("managed", "true")] (by decide)).2.2.2

/-! ## Claim C7 amended theorem: where None and "" are distinguished -/

/-- C7 amended: add_hook distinguishes matcher None from matcher "" (only
None takes the matcher-less path; "" creates a group with the literal empty
matcher), but remove_hook tests the matcher for Python truthiness, so
remove_hook with matcher "" does not remove empty-string-matcher groups
(it behaves as if no matcher was given), and list_matchers reports a group
without a matcher key as "", indistinguishable from a literal "". -/
theorem matcher_sentinel_semantics (s : SettingsData) (m : HooksMap) (E : String)
    (g : HookGroup) (gs : List HookGroup)
    (hs : s.hooks = some m) (hev : dictGet E m = some (some (g :: gs))) :
    remove_hook s E (some "") none = Except.ok (false, s)
    ∧ list_matchers s E = Except.ok ((g :: gs).map (fun e => e.matcher.getD ""))
    ∧ ∀ (t c : String),
        add_hook ⟨some [], []⟩ E (some "") t c [] none
          = Except.ok ⟨some [(E, some [⟨some "", [⟨t, c, []⟩], none⟩])], []⟩ := by
  obtain ⟨sh, sx⟩ := s
  simp only [SettingsData.mk.injEq] at hs
  have hs1 : sh = some m := hs
  subst hs1
  refine ⟨?_, ?_, ?_⟩
  · simp [remove_hook, hev, pyTruthy]
  · simp [list_matchers, hev]
  · intro t c
    simp [add_hook, dictGet, dictSet, metaTruthy, List.find?]

theorem matcher_sentinel_semantics_witness :
    remove_hook ⟨some [("E", some [⟨some "", [⟨"command", "y", []⟩], none⟩])], []⟩
        "E" (some "") none
      = Except.ok (false, ⟨some [("E", some [⟨some "", [⟨"command", "y", []⟩], none⟩])], []⟩)
    ∧ list_matchers ⟨some [("E", some [⟨some "", [⟨"command", "y", []⟩], none⟩])], []⟩ "E"
        = Except.ok [""]
    ∧ ∀ (t c : String),
        add_hook ⟨some [], []⟩ "E" (some "") t c [] none
          = Except.ok ⟨some [("E", some [⟨some "", [⟨t, c, []⟩], none⟩])], []⟩ :=
  matcher_sentinel_semantics
    ⟨some [("E", some [⟨some "", [⟨"command", "y", []⟩], none⟩])], []⟩
    [("E", some [⟨some "", [⟨"command", "y", []⟩], none⟩])]
    "E" ⟨some "", [⟨"command", "y", []⟩], none⟩ [] rfl rfl

/-! ## Claim C10 amended theorem: the hooks key stays a mapping on
well-formed registries -/

/-- C10 amended: load always leaves a "hooks" key in the settings document
(the model makes the key structural, mirroring the constructor guarantee),
and for any state whose "hooks" value is a mapping binding every event to a
group list, every editor operation succeeds without a missing-key error and
leaves the "hooks" key bound to a mapping; only a registry file binding
"hooks" (or an event) to null breaks this, as the counterexample shows. -/
theorem hooks_key_invariant_preservation (s : SettingsData) (m : HooksMap)
    (hs : s.hooks = some m) (hwf : ∀ p ∈ m, p.2.isSome = true) :
    (∀ E mo t c ex fm, okSettings (add_hook s E mo t c ex fm) = true)
    ∧ (∀ E mo co, okState (remove_hook s E mo co) = true)
    ∧ (∀ E mo, okState (remove_flow_hooks s E mo) = true)
    ∧ (∀ E, okState (clear_event s E) = true)
    ∧ (clear_all s).hooks.isSome = true
    ∧ okSave (save_hooks s) = true
    ∧ okAny (list_events s) = true
    ∧ (∀ E, okAny (get_event_hooks s E) = true) := by
  obtain ⟨sh, sx⟩ := s
  simp only [SettingsData.mk.injEq] at hs
  have hs1 : sh = some m := hs
  subst hs1
  have hlist : ∀ (E : String) (v : EventVal), dictGet E m = some v →
      ∃ l, v = some l := by
    intro E v hget
    obtain ⟨p, hp, hp2⟩ := dictGet_mem E m v hget
    have hv := hwf p hp
    rw [hp2] at hv
    cases v with
    | none => simp at hv
    | some l => exact ⟨l, rfl⟩
  refine ⟨?_, ?_, ?_, ?_, rfl, ?_, rfl, fun E => rfl⟩
  · intro E mo t c ex fm
    cases hget : dictGet E m with
    | none =>
        have hset := dictGet_dictSet_self E (some ([] : List HookGroup)) m
        cases mo with
        | none => simp [add_hook, okSettings, hget, hset, List.find?]
        | some mv => simp [add_hook, okSettings, hget, hset, List.find?]
    | some v =>
        obtain ⟨l, rfl⟩ := hlist E v hget
        cases mo with
        | none =>
            cases hf : l.find? (fun e =>
                e.matcher.isNone
                  && (if metaTruthy fm then e.flow.isSome else e.flow.isNone)) with
            | none => simp [add_hook, okSettings, hget, hf]
            | some g => simp [add_hook, okSettings, hget, hf]
        | some mv =>
            cases hf : l.find? (fun e => e.matcher == some mv) with
            | none => simp [add_hook, okSettings, hget, hf]
            | some g => simp [add_hook, okSettings, hget, hf]
  · intro E mo co
    cases hget : dictGet E m with
    | none => simp [remove_hook, okState, hget]
    | some v =>
        obtain ⟨l, rfl⟩ := hlist E v hget
        cases hmt : pyTruthy mo with
        | true => simp [remove_hook, okState, hget, hmt]
        | false =>
            cases hct : pyTruthy co with
            | true => simp [remove_hook, okState, hget, hmt, hct]
            | false => simp [remove_hook, okState, hget, hmt, hct]
  · intro E mo
    cases hget : dictGet E m with
    | none => simp [remove_flow_hooks, okState, hget]
    | some v =>
        obtain ⟨l, rfl⟩ := hlist E v hget
        cases mo with
        | none => simp [remove_flow_hooks, okState, hget]
        | some mv => simp [remove_flow_hooks, okState, hget]
  · intro E
    cases hget : dictGet E m with
    | none => simp [clear_event, okState, hget]
    | some v => simp [clear_event, okState, hget]
  · simp [save_hooks, okSave]

theorem hooks_key_invariant_preservation_witness :
    (∀ E mo t c ex fm,
        okSettings (add_hook ⟨some [("E", some [])], []⟩ E mo t c ex fm) = true)
    ∧ (∀ E mo co,
        okState (remove_hook ⟨some [("E", some [])], []⟩ E mo co) = true)
    ∧ (∀ E mo, okState (remove_flow_hooks ⟨some [("E", some [])], []⟩ E mo) = true)
    ∧ (∀ E, okState (clear_event ⟨some [("E", some [])], []⟩ E) = true)
    ∧ (clear_all ⟨some [("E", some [])], []⟩).hooks.isSome = true
    ∧ okSave (save_hooks ⟨some [("E", some [])], []⟩) = true
    ∧ okAny (list_events ⟨some [("E", some [])], []⟩) = true
    ∧ (∀ E, okAny (get_event_hooks ⟨some [("E", some [])], []⟩ E) = true) :=
  hooks_key_invariant_preservation ⟨some [("E", some [])], []⟩ [("E", some [])]
    rfl (by decide)

end FlowCli
